import Mathlib

/-!
Shallow embedding of the cql-ws client session layer (src/lib.rs): the
certificate Trust Policy (`SkipVerifyHostName`), the session protocol engine
(`Session::startup`, `Session::query`, `Session::construct_request`,
`load_ca`, `Session::new_tls`) and the transport pump (the reader and writer
loops of `spawn_read_write_tasks`).

External collaborators (the cassandra-protocol codec, the WebPki verifier,
the URI parser, the file system, the socket) are modelled as explicit
function parameters; the repository's own control flow is translated
directly.  Rust panics (`unwrap`, `panic`, `todo`) are modelled as explicit
error results so that theorems can talk about them.
-/

namespace CqlWs

/-! ### Trust Policy: rustls error model and SkipVerifyHostName -/

/-- The variants of `rustls::CertificateError` relevant to the delegate
verifier's failures (name mismatch, expiry, trust chain, encoding,
revocation). -/
inductive CertificateError
  | NotValidForName
  | Expired
  | NotValidYet
  | UnknownIssuer
  | BadEncoding
  | Revoked
  | BadSignature
  | UnhandledCriticalExtension
  deriving DecidableEq, Repr

/-- The fragment of `rustls::Error` the verifier can produce. -/
inductive RustlsError
  | InvalidCertificate (e : CertificateError)
  | InvalidMessage
  | General (s : String)
  | UnsupportedNameType
  deriving DecidableEq, Repr

/-- The `rustls::client::ServerCertVerified` token: an opaque success token. -/
inductive ServerCertVerified
  | assertion
  deriving DecidableEq, Repr

/-- A DER certificate, opaque bytes (`rustls::Certificate`). -/
abbrev Certificate : Type := List Nat

/-- A claimed server identity (`rustls::ServerName`), opaque. -/
abbrev ServerName : Type := String

/-- The full input of `verify_server_cert`: end-entity certificate,
intermediates, claimed server name, stapled OCSP response and the
verification time. -/
structure VerifyInput where
  end_entity : Certificate
  intermediates : List Certificate
  server_name : ServerName
  ocsp_response : List Nat
  now : Nat

/-- The delegate standard verifier (`WebPkiVerifier::verify_server_cert`),
external to the repository: any function from the verification input to a
rustls result. -/
abbrev WebPkiVerify : Type :=
  VerifyInput → Except RustlsError ServerCertVerified

/-- The embedding of `SkipVerifyHostName::verify_server_cert` (src/lib.rs lines 262-287):
delegate to the standard verifier; convert only the
`InvalidCertificate(NotValidForName)` failure into success; return every
other error unchanged. -/
def verify_server_cert (verifier : WebPkiVerify) (input : VerifyInput) :
    Except RustlsError ServerCertVerified :=
  match verifier input with
  | .ok result => .ok result
  | .error (.InvalidCertificate .NotValidForName) => .ok .assertion
  | .error err => .error err

/-! ### Wire protocol data model -/

/-- The `cassandra_protocol::frame::Opcode` enumeration. -/
inductive Opcode
  | Error
  | Startup
  | Ready
  | Authenticate
  | Options
  | Supported
  | Query
  | Result
  | Prepare
  | Execute
  | Register
  | Event
  | Batch
  | AuthChallenge
  | AuthResponse
  | AuthSuccess
  deriving DecidableEq, Repr

/-- The `cassandra_protocol::frame::Version` enumeration (the engine always requests V4). -/
inductive Version
  | V3
  | V4
  | V5
  deriving DecidableEq, Repr

/-- A protocol envelope: version, opcode and an opaque encoded body
(`cassandra_protocol::frame::Envelope`; direction, flags and stream id play
no role in the claims). -/
structure Envelope where
  version : Version
  opcode : Opcode
  body : List Nat
  deriving DecidableEq, Repr

/-- A WebSocket message (`tokio_tungstenite::tungstenite::Message`). -/
inductive Message
  | binary (data : List Nat)
  | text (s : String)
  | ping (data : List Nat)
  | pong (data : List Nat)
  | close
  deriving DecidableEq, Repr

/-- Cassandra column type identifiers
(`cassandra_protocol::types::...::ColTypeId`), abridged to a representative
set; the decoding wrapper is abstract in it. -/
inductive ColTypeId
  | Ascii
  | Bigint
  | Blob
  | Boolean
  | Int
  | Varchar
  | Uuid
  | Double
  deriving DecidableEq, Repr

/-- A column type (the claims only need its id). -/
structure ColType where
  id : ColTypeId
  deriving DecidableEq, Repr

/-- A column specification from rows-result metadata. -/
structure ColSpec where
  name : String
  col_type : ColType
  deriving DecidableEq, Repr

/-- A serialized cell value (`CBytes`): possibly null bytes. -/
abbrev CBytes : Type := Option (List Nat)

/-- The `cassandra_protocol::types::cassandra_type::CassandraType` values, abridged. -/
inductive CassandraType
  | Ascii (s : String)
  | Bigint (i : Int)
  | Blob (bs : List Nat)
  | Boolean (b : Bool)
  | Int (i : Int)
  | Varchar (s : String)
  | Null
  deriving DecidableEq, Repr

/-- The external `wrapper_fn` family: for a column type id, a decoder from
cell bytes, column type and protocol version to a value (`None` models a
decoding error, which the code unwraps). -/
abbrev WrapperFn : Type :=
  ColTypeId → CBytes → ColType → Version → Option CassandraType

/-- The kinds of result body of a response
(`cassandra_protocol::frame::message_result::ResResultBody`). -/
inductive ResResultBody
  | Rows (rows_content : List (List CBytes)) (col_specs : List ColSpec)
  | Void
  | SetKeyspace (s : String)
  | Prepared
  | SchemaChange
  deriving DecidableEq, Repr

/-- A decoded response body
(`cassandra_protocol::frame::message_response::ResponseBody`), abridged. -/
inductive ResponseBody
  | Result (r : ResResultBody)
  | Ready
  | Authenticate (cls : String)
  | ErrorBody (msg : String)
  | Supported
  | Event
  | AuthSuccess
  | AuthChallenge
  deriving DecidableEq, Repr

/-- The external codec boundary: envelope encoding and decoding and body
serialization, all owned by the cassandra-protocol crate. -/
structure Codec where
  encode : Envelope → List Nat
  decode : List Nat → Option Envelope
  response_body : Envelope → Option ResponseBody
  startup_body : List Nat
  query_body : String → List Nat

/-- The envelope built by `Envelope::new_req_startup(None, Version::V4)`. -/
def new_req_startup (c : Codec) : Envelope :=
  { version := .V4, opcode := .Startup, body := c.startup_body }

/-- The envelope built by `Envelope::new_query(BodyReqQuery, Flags::empty(), Version::V4)`. -/
def new_query (c : Codec) (query : String) : Envelope :=
  { version := .V4, opcode := .Query, body := c.query_body query }

/-! ### Session protocol engine -/

/-- The session's queue endpoints: the receive end of the inbound queue and
the send end of the outbound queue (`struct Session`).  Queues are FIFO
lists, head = oldest. -/
structure SessionState where
  in_rx : List Message
  out_tx : List Message
  deriving DecidableEq, Repr

/-- How row decoding aborts inside `Session::query`: indexing `row[i]` past
the end of the row, or `wrapper(...)` returning an error that the code
unwraps. -/
inductive RowsAbort
  | indexOutOfBounds (col : Nat)
  | wrapperFailed (col : Nat)
  deriving DecidableEq, Repr

/-- The ways the engine's operations terminate fatally (every variant is a
panic in the source). -/
inductive SessionError
  | channelClosed
  | decodeNonBinary
  | decodeFailure
  | notImplemented
  | protocolViolation (msg : String)
  | responseBodyFailure
  | rowsAbort (a : RowsAbort)
  deriving DecidableEq, Repr

/-- The embedding of `Session::decode`: a binary message is decoded through the codec (the
code unwraps the decoding result); any other message kind panics. -/
def Session.decode (c : Codec) (ws_message : Message) :
    Except SessionError Envelope :=
  match ws_message with
  | .binary data =>
    match c.decode data with
    | some env => .ok env
    | none => .error .decodeFailure
  | _ => .error .decodeNonBinary

/-- The embedding of `Session::encode`: encode the envelope and wrap it in a binary
message. -/
def Session.encode (c : Codec) (envelope : Envelope) : Message :=
  .binary (c.encode envelope)

/-- The embedding of `Session::startup` (src/lib.rs lines 108-121): push one encoded startup
envelope to the outbound queue, consume exactly one reply from the inbound
queue, decode it, and dispatch on the opcode: Ready succeeds, Authenticate
hits `todo` (not yet supported), anything else panics. -/
def Session.startup (c : Codec) (st : SessionState) :
    Except SessionError Unit × SessionState :=
  let out_tx := st.out_tx ++ [Session.encode c (new_req_startup c)]
  match st.in_rx with
  | [] => (.error .channelClosed, { in_rx := [], out_tx := out_tx })
  | m :: rest =>
    let st := { in_rx := rest, out_tx := out_tx }
    match Session.decode c m with
    | .error e => (.error e, st)
    | .ok envelope =>
      match envelope.opcode with
      | .Ready => (.ok (), st)
      | .Authenticate => (.error .notImplemented, st)
      | _ =>
        (.error (.protocolViolation
          ("expected to receive a ready or authenticate message")), st)

/-- The inner loop of `Session::query` over one row: for each
`(i, col_spec)` in `metadata.col_specs.iter().enumerate()`, look up
`row[i]` (a panic when out of bounds), apply `wrapper_fn(&col_spec.col_type.id)`
and unwrap its result, pushing values in order. -/
def decodeRowFrom (wrapper_fn : WrapperFn) (version : Version)
    (row : List CBytes) : Nat → List ColSpec →
    Except RowsAbort (List CassandraType)
  | _, [] => .ok []
  | i, col_spec :: specs =>
    match row.get? i with
    | none => .error (.indexOutOfBounds i)
    | some cell =>
      match wrapper_fn col_spec.col_type.id cell col_spec.col_type version with
      | none => .error (.wrapperFailed i)
      | some value =>
        match decodeRowFrom wrapper_fn version row (i + 1) specs with
        | .error a => .error a
        | .ok values => .ok (value :: values)

/-- The outer loop of `Session::query`: decode each row of `rows_content`
in order against the column specifications of the response metadata. -/
def decodeRows (wrapper_fn : WrapperFn) (version : Version)
    (col_specs : List ColSpec) :
    List (List CBytes) → Except RowsAbort (List (List CassandraType))
  | [] => .ok []
  | row :: rows =>
    match decodeRowFrom wrapper_fn version row 0 col_specs with
    | .error a => .error a
    | .ok row_result_values =>
      match decodeRows wrapper_fn version col_specs rows with
      | .error a => .error a
      | .ok result_values => .ok (row_result_values :: result_values)

/-- The embedding of `Session::query` (src/lib.rs lines 123-159): push one encoded query
envelope to the outbound queue, consume exactly one reply from the inbound
queue, decode it; a rows result is decoded row by row against the response
metadata, any other envelope panics. -/
def Session.query (c : Codec) (wrapper_fn : WrapperFn) (query : String)
    (st : SessionState) :
    Except SessionError (List (List CassandraType)) × SessionState :=
  let envelope := new_query c query
  let out_tx := st.out_tx ++ [Session.encode c envelope]
  match st.in_rx with
  | [] => (.error .channelClosed, { in_rx := [], out_tx := out_tx })
  | m :: rest =>
    let st := { in_rx := rest, out_tx := out_tx }
    match Session.decode c m with
    | .error e => (.error e, st)
    | .ok envelope =>
      match c.response_body envelope with
      | none => (.error .responseBodyFailure, st)
      | some (.Result (.Rows rows_content col_specs)) =>
        match decodeRows wrapper_fn envelope.version col_specs rows_content with
        | .error a => (.error (.rowsAbort a), st)
        | .ok result_values => (.ok result_values, st)
      | some _ =>
        (.error (.protocolViolation ("unexpected to recieve a result envelope")),
          st)

/-! ### Transport pump: reader and writer loops -/

/-- One occurrence observed by the reader loop's select: the socket yielded
a frame (`Some(Ok(_))`), a transport read error (`Some(Err(_))`), stream
end (`None`, which the loop silently skips), or the inbound queue's
consumer disappeared (`in_tx.closed()`). -/
inductive ReadEvent
  | received (m : Message)
  | readError (e : String)
  | streamEnded
  | consumerClosed
  deriving DecidableEq, Repr

/-- How the reader loop ends. -/
inductive ReaderOutcome
  | cleanClose
  | consumerGone
  | fatalNonBinary
  | fatalReadError (e : String)
  | stillRunning
  deriving DecidableEq, Repr

/-- The read task of `spawn_read_write_tasks` (src/lib.rs lines 194-216),
run over a finite schedule of events: forward each binary frame to the
inbound queue; return cleanly on a close frame; panic on any other frame
kind or on a read error; return when the consumer disappears; skip a `None`
from the stream.  Yields the messages forwarded, in order, and how the loop
ended (`stillRunning` when the schedule is exhausted first). -/
def readerLoop : List ReadEvent → List Message × ReaderOutcome
  | [] => ([], .stillRunning)
  | .received (.binary data) :: events =>
    let rest := readerLoop events
    (.binary data :: rest.1, rest.2)
  | .received .close :: _ => ([], .cleanClose)
  | .received _ :: _ => ([], .fatalNonBinary)
  | .readError e :: _ => ([], .fatalReadError e)
  | .streamEnded :: events => readerLoop events
  | .consumerClosed :: _ => ([], .consumerGone)

/-- An event keeps the reader loop running exactly when it is a binary
frame or a silent stream end. -/
def ReadEvent.continues : ReadEvent → Bool
  | .received (.binary _) => true
  | .streamEnded => true
  | _ => false

/-- The message a single event forwards to the inbound queue, if any. -/
def ReadEvent.forwarded : ReadEvent → Option Message
  | .received (.binary data) => some (.binary data)
  | _ => none

/-- The outcome of the reader loop at its first non-continuing event. -/
def ReadEvent.stopOutcome : ReadEvent → ReaderOutcome
  | .received .close => .cleanClose
  | .readError e => .fatalReadError e
  | .consumerClosed => .consumerGone
  | _ => .fatalNonBinary

/-- The result of one `write.send(...)` on the socket:
success, the tolerated `Error::Protocol(ProtocolError::SendAfterClosing)`,
or any other transport error. -/
inductive SendResult
  | ok
  | sendAfterClosing
  | otherError (e : String)
  deriving DecidableEq, Repr

/-- How the writer loop ends: a clean break after the close frame, or a
panic from an unwrapped send failure. -/
inductive WriterOutcome
  | terminated
  | fatal (e : String)
  deriving DecidableEq, Repr

/-- The write task of `spawn_read_write_tasks` (src/lib.rs lines 219-232),
over the queue contents followed by producer close.  `send k` is the
outcome of the k-th send on the socket.  Each queue entry is sent in order
and its result unwrapped (any failure panics); once the queue's producer
side is closed, one close frame is sent, `SendAfterClosing` on it is
tolerated, any other failure panics.  Yields the messages handed to the
socket, in order, and how the loop ended. -/
def writerLoop (send : Nat → SendResult) :
    Nat → List Message → List Message × WriterOutcome
  | k, [] =>
    match send k with
    | .ok => ([.close], .terminated)
    | .sendAfterClosing => ([.close], .terminated)
    | .otherError e => ([.close], .fatal e)
  | k, ws_message :: queue =>
    match send k with
    | .ok =>
      let rest := writerLoop send (k + 1) queue
      (ws_message :: rest.1, rest.2)
    | .sendAfterClosing => ([ws_message], .fatal ("SendAfterClosing"))
    | .otherError e => ([ws_message], .fatal e)

/-! ### Connect-time setup: request construction and CA loading -/

/-- A parsed URI: only the authority component matters to the code under
scrutiny (`http::Uri`). -/
structure Uri where
  authority : Option (List Char)
  deriving DecidableEq, Repr

/-- The constructed HTTP upgrade request. -/
structure HttpRequest where
  method : String
  headers : List (String × String)
  request_uri : Uri
  deriving DecidableEq, Repr

/-- Connect-time fatal failures (each one an unwrap or explicit panic in
the source). -/
inductive SetupError
  | uriParseFailure
  | noAuthority
  | emptyHost
  | caReadFailure
  | caParseFailure
  | caAddFailure
  | connectFailure
  deriving DecidableEq, Repr

/-- The host extraction of `Session::construct_request`:
`authority.find(at).map(..split_at(idx + 1)..).unwrap_or(authority)` —
everything strictly after the first `@` of the authority, or the whole
authority when there is none. -/
def hostOf (authority : List Char) : List Char :=
  match authority.findIdx? (· = '@') with
  | some idx => (authority.splitAt (idx + 1)).2
  | none => authority

/-- The embedding of `Session::construct_request` (src/lib.rs lines 33-61), with the URI
parser and the fresh WebSocket key abstract: parse the URI (unwrap), take
its authority (unwrap), strip a userinfo part to obtain the host, panic on
an empty host, then build a GET request with the upgrade headers and,
when the flag is set, the `Sec-WebSocket-Protocol: cql` header. -/
def construct_request (parseUri : String → Option Uri) (genKey : String)
    (uri : String) (use_subprotocol_header : Bool) :
    Except SetupError HttpRequest :=
  match parseUri uri with
  | none => .error .uriParseFailure
  | some parsed =>
    match parsed.authority with
    | none => .error .noAuthority
    | some authority =>
      let host := hostOf authority
      if host.isEmpty then .error .emptyHost
      else
        let headers := [("Host", String.mk host),
          ("Connection", "Upgrade"),
          ("Upgrade", "websocket"),
          ("Sec-WebSocket-Version", "13"),
          ("Sec-WebSocket-Key", genKey)]
        let headers := if use_subprotocol_header then
            headers ++ [("Sec-WebSocket-Protocol", "cql")]
          else headers
        .ok { method := "GET", headers := headers, request_uri := parsed }

/-- The platform's trusted-roots store, as the list of added
certificates. -/
abbrev RootCertStore : Type := List Certificate

/-- The embedding of `load_ca` (src/lib.rs lines 235-244), with the file system and PEM
parser abstract: open and read the file (unwrap), parse the PEM certs
(unwrap), and add each one to an empty root store (unwrap on each add). -/
def load_ca (readFile : String → Option (List Nat))
    (parseCerts : List Nat → Option (List Certificate))
    (addOk : Certificate → Bool) (path : String) :
    Except SetupError RootCertStore :=
  match readFile path with
  | none => .error .caReadFailure
  | some pem =>
    match parseCerts pem with
    | none => .error .caParseFailure
    | some certs =>
      if certs.all addOk then .ok certs else .error .caAddFailure

/-- The embedding of `Session::new_tls` (src/lib.rs lines 81-106) up to and including the
startup handshake: load the CA store, construct the upgrade request,
connect (abstract; on success it yields the inbound messages the transport
will deliver), then run `startup` on fresh queues.  The second component
is the outbound queue: every frame the session pushed toward the socket.
A setup failure short-circuits with no frame pushed or consumed. -/
def new_tls (c : Codec) (parseUri : String → Option Uri) (genKey : String)
    (readFile : String → Option (List Nat))
    (parseCerts : List Nat → Option (List Certificate))
    (addOk : Certificate → Bool)
    (connect : HttpRequest → RootCertStore → Option (List Message))
    (address : String) (ca_path : String) (use_subprotocol_header : Bool) :
    Except SetupError (Except SessionError Unit × SessionState) ×
      List Message :=
  match load_ca readFile parseCerts addOk ca_path with
  | .error e => (.error e, [])
  | .ok root_cert_store =>
    match construct_request parseUri genKey address use_subprotocol_header with
    | .error e => (.error e, [])
    | .ok request =>
      match connect request root_cert_store with
      | none => (.error .connectFailure, [])
      | some inbound =>
        let r := Session.startup c { in_rx := inbound, out_tx := [] }
        (.ok r, r.2.out_tx)

/-! ### Concrete sample instances of the external collaborators, used to
exercise the engine on closed inputs -/

/-- A sample opcode numbering for the sample codec. -/
def opcodeOfNat : Nat → Opcode
  | 0 => .Error
  | 2 => .Ready
  | 3 => .Authenticate
  | 8 => .Result
  | _ => .Options

/-- Sample metadata: two columns of distinct types. -/
def sampleColSpecs : List ColSpec :=
  [{ name := "id", col_type := { id := .Int } },
   { name := "name", col_type := { id := .Varchar } }]

/-- Sample rows content: three rows of two cells each, mixed types and one
null. -/
def sampleRows : List (List CBytes) :=
  [[some [1], some [65, 66]],
   [some [2, 3], none],
   [some [4], some [67]]]

/-- A sample decoding wrapper: decodes Int and Varchar cells, nulls to
`Null`, everything else fails. -/
def sampleWrapper : WrapperFn := fun id cell _ _ =>
  match id, cell with
  | .Int, some bytes => some (.Int bytes.length)
  | .Int, none => some .Null
  | .Varchar, some bytes => some (.Varchar (toString bytes.length))
  | .Varchar, none => some .Null
  | _, _ => none

/-- A sample codec: a one-byte body selects the opcode of the decoded
envelope, and response bodies are synthesized from the opcode, with rows
results carrying the sample metadata and rows. -/
def sampleCodec : Codec where
  encode e := e.body
  decode data :=
    match data with
    | [n] => some { version := .V4, opcode := opcodeOfNat n, body := [n] }
    | _ => none
  response_body e :=
    match e.opcode with
    | .Ready => some .Ready
    | .Authenticate => some (.Authenticate ("PasswordAuthenticator"))
    | .Result => some (.Result (.Rows sampleRows sampleColSpecs))
    | .Error => some (.ErrorBody ("server error"))
    | .Supported => some .Supported
    | _ => none
  startup_body := [1]
  query_body _ := [7]

/-- The upgrade request constructed for the authority `u@h` with the
sub-protocol flag set. -/
def sampleUserinfoRequest : HttpRequest :=
  { method := "GET",
    headers := [("Host", String.mk ['h']), ("Connection", "Upgrade"),
      ("Upgrade", "websocket"), ("Sec-WebSocket-Version", "13"),
      ("Sec-WebSocket-Key", "samplekey"),
      ("Sec-WebSocket-Protocol", "cql")],
    request_uri := { authority := some ['u', '@', 'h'] } }

/-- The upgrade request constructed for the authority `hz` with the
sub-protocol flag set. -/
def sampleBareRequest : HttpRequest :=
  { method := "GET",
    headers := [("Host", String.mk ['h', 'z']), ("Connection", "Upgrade"),
      ("Upgrade", "websocket"), ("Sec-WebSocket-Version", "13"),
      ("Sec-WebSocket-Key", "samplekey"),
      ("Sec-WebSocket-Protocol", "cql")],
    request_uri := { authority := some ['h', 'z'] } }

/-- The table the sample wrapper produces from the sample rows. -/
def sampleTable : List (List CassandraType) :=
  [[.Int 1, .Varchar ("2")],
   [.Int 2, .Null],
   [.Int 1, .Varchar ("1")]]

end CqlWs

/-! ### Theorems -/

namespace CqlWs

/-- C1: `SkipVerifyHostName::verify_server_cert` succeeds exactly when the
delegated standard verifier succeeds or fails with
`InvalidCertificate(NotValidForName)`; every other delegate error is
returned unchanged as a failure. -/
theorem verify_server_cert_skips_only_name_mismatch
    (verifier : WebPkiVerify) (input : VerifyInput) :
    ((verify_server_cert verifier input).isOk ↔
      ((verifier input).isOk ∨
        verifier input = .error (.InvalidCertificate .NotValidForName))) ∧
    (∀ err : RustlsError, err ≠ .InvalidCertificate .NotValidForName →
      verifier input = .error err →
      verify_server_cert verifier input = .error err) := by
  constructor
  · unfold verify_server_cert
    cases h : verifier input with
    | ok result => simp [Except.isOk, Except.toBool]
    | error err =>
      match err with
      | .InvalidCertificate .NotValidForName =>
        simp [Except.isOk, Except.toBool]
      | .InvalidCertificate .Expired => simp [Except.isOk, Except.toBool]
      | .InvalidCertificate .NotValidYet => simp [Except.isOk, Except.toBool]
      | .InvalidCertificate .UnknownIssuer => simp [Except.isOk, Except.toBool]
      | .InvalidCertificate .BadEncoding => simp [Except.isOk, Except.toBool]
      | .InvalidCertificate .Revoked => simp [Except.isOk, Except.toBool]
      | .InvalidCertificate .BadSignature => simp [Except.isOk, Except.toBool]
      | .InvalidCertificate .UnhandledCriticalExtension =>
        simp [Except.isOk, Except.toBool]
      | .InvalidMessage => simp [Except.isOk, Except.toBool]
      | .General s => simp [Except.isOk, Except.toBool]
      | .UnsupportedNameType => simp [Except.isOk, Except.toBool]
  · intro err hne hverr
    unfold verify_server_cert
    rw [hverr]
    match err, hne with
    | .InvalidCertificate .Expired, _ => rfl
    | .InvalidCertificate .NotValidYet, _ => rfl
    | .InvalidCertificate .UnknownIssuer, _ => rfl
    | .InvalidCertificate .BadEncoding, _ => rfl
    | .InvalidCertificate .Revoked, _ => rfl
    | .InvalidCertificate .BadSignature, _ => rfl
    | .InvalidCertificate .UnhandledCriticalExtension, _ => rfl
    | .InvalidMessage, _ => rfl
    | .General s, _ => rfl
    | .UnsupportedNameType, _ => rfl
    | .InvalidCertificate .NotValidForName, hne => exact absurd rfl hne

/-- C2: with a decodable binary reply at the head of the inbound queue,
`Session::startup` appends exactly one encoded startup frame to the
outbound queue and consumes exactly one inbound frame; it succeeds exactly
when the reply's opcode is Ready; an Authenticate reply yields the fatal
not-yet-supported failure, which differs from the protocol violation that
every other opcode yields. -/
theorem startup_one_round_trip (c : Codec) (st : SessionState)
    (data : List Nat) (rest : List Message) (env : Envelope)
    (hin : st.in_rx = Message.binary data :: rest)
    (hdec : c.decode data = some env) :
    (Session.startup c st).2.out_tx
        = st.out_tx ++ [Session.encode c (new_req_startup c)] ∧
    (Session.startup c st).2.in_rx = rest ∧
    ((Session.startup c st).1 = .ok () ↔ env.opcode = .Ready) ∧
    (env.opcode = .Authenticate →
      (Session.startup c st).1 = .error .notImplemented) ∧
    (env.opcode ≠ .Ready → env.opcode ≠ .Authenticate →
      (Session.startup c st).1 = .error (.protocolViolation
        "expected to receive a ready or authenticate message")) ∧
    SessionError.notImplemented ≠ SessionError.protocolViolation
      "expected to receive a ready or authenticate message" := by
  obtain ⟨in_rx, out_tx⟩ := st
  simp only at hin
  subst hin
  refine ⟨?_, ?_, ?_, ?_, ?_, by simp⟩ <;>
    cases hop : env.opcode <;>
      simp [Session.startup, Session.decode, hdec, hop]

/-- C2 witness: with the sample codec and a reply decoding to a Ready
envelope, startup succeeds, consumes the single reply and pushes the single
startup frame; the Authenticate and unexpected-opcode cases are also
exercised at concrete inputs. -/
theorem startup_one_round_trip_witness :
    (Session.startup sampleCodec
        { in_rx := [Message.binary [2]], out_tx := [] }).1 = .ok () ∧
    (Session.startup sampleCodec
        { in_rx := [Message.binary [2]], out_tx := [] }).2
      = { in_rx := [], out_tx := [Message.binary [1]] } ∧
    (Session.startup sampleCodec
        { in_rx := [Message.binary [3]], out_tx := [] }).1
      = .error .notImplemented ∧
    (Session.startup sampleCodec
        { in_rx := [Message.binary [8]], out_tx := [] }).1
      = .error (.protocolViolation
          "expected to receive a ready or authenticate message") := by
  have hready := startup_one_round_trip sampleCodec
    { in_rx := [Message.binary [2]], out_tx := [] } [2] []
    { version := .V4, opcode := .Ready, body := [2] } rfl rfl
  have hauth := startup_one_round_trip sampleCodec
    { in_rx := [Message.binary [3]], out_tx := [] } [3] []
    { version := .V4, opcode := .Authenticate, body := [3] } rfl rfl
  have hother := startup_one_round_trip sampleCodec
    { in_rx := [Message.binary [8]], out_tx := [] } [8] []
    { version := .V4, opcode := .Result, body := [8] } rfl rfl
  refine ⟨hready.2.2.1.mpr rfl, ?_, hauth.2.2.2.1 rfl,
    hother.2.2.2.2.1 (by decide) (by decide)⟩
  have h1 := hready.1
  have h2 := hready.2.1
  simp only at h1 h2 ⊢
  cases hst : (Session.startup sampleCodec
      { in_rx := [Message.binary [2]], out_tx := [] }).2
  simp [hst] at h1 h2
  simp [h1, h2, Session.encode, new_req_startup, sampleCodec]

/-- Successful row decoding, characterized pointwise: starting at column
index `i`, the decoded values line up one-to-one with the remaining column
specifications, each value produced by the wrapper for its column's type
from the cell at that column's absolute index. -/
theorem decodeRowFrom_ok (wf : WrapperFn) (v : Version) (row : List CBytes) :
    ∀ (specs : List ColSpec) (i : Nat) (vals : List CassandraType),
    decodeRowFrom wf v row i specs = .ok vals →
    vals.length = specs.length ∧
    ∀ j spec, specs.get? j = some spec →
      ∃ cell value, row.get? (i + j) = some cell ∧
        wf spec.col_type.id cell spec.col_type v = some value ∧
        vals.get? j = some value
  | [], _, vals, h => by
    simp only [decodeRowFrom] at h
    cases h
    exact ⟨rfl, fun j spec hj => by simp at hj⟩
  | spec :: specs, i, vals, h => by
    rw [decodeRowFrom] at h
    cases hcell : row.get? i with
    | none => simp only [hcell] at h; cases h
    | some cell =>
      simp only [hcell] at h
      cases hw : wf spec.col_type.id cell spec.col_type v with
      | none => simp only [hw] at h; cases h
      | some value =>
        simp only [hw] at h
        cases hrec : decodeRowFrom wf v row (i + 1) specs with
        | error a => simp only [hrec] at h; cases h
        | ok values =>
          simp only [hrec, Except.ok.injEq] at h
          subst h
          obtain ⟨hlen, hspecs⟩ := decodeRowFrom_ok wf v row specs (i + 1)
            values hrec
          refine ⟨by simp [hlen], fun j s hj => ?_⟩
          cases j with
          | zero =>
            simp only [List.get?] at hj
            cases hj
            exact ⟨cell, value, by simpa using hcell, hw, rfl⟩
          | succ j =>
            simp only [List.get?] at hj
            obtain ⟨cell2, value2, hc2, hw2, hv2⟩ := hspecs j s hj
            refine ⟨cell2, value2, ?_, hw2, by simpa using hv2⟩
            have harith : i + (j + 1) = (i + 1) + j := by omega
            rw [harith]
            exact hc2

/-- Successful table decoding, characterized rowwise: the output has one
row per input row, in order, each the successful decoding of its input
row from column index 0. -/
theorem decodeRows_ok (wf : WrapperFn) (v : Version) (specs : List ColSpec) :
    ∀ (rows : List (List CBytes)) (table : List (List CassandraType)),
    decodeRows wf v specs rows = .ok table →
    table.length = rows.length ∧
    ∀ j row, rows.get? j = some row →
      ∃ trow, table.get? j = some trow ∧
        decodeRowFrom wf v row 0 specs = .ok trow
  | [], table, h => by
    simp only [decodeRows] at h
    cases h
    exact ⟨rfl, fun j row hj => by simp at hj⟩
  | row :: rows, table, h => by
    rw [decodeRows] at h
    cases hrow : decodeRowFrom wf v row 0 specs with
    | error a => simp only [hrow] at h; cases h
    | ok trow =>
      simp only [hrow] at h
      cases hrest : decodeRows wf v specs rows with
      | error a => simp only [hrest] at h; cases h
      | ok rtable =>
        simp only [hrest, Except.ok.injEq] at h
        subst h
        obtain ⟨hlen, hrows⟩ := decodeRows_ok wf v specs rows rtable hrest
        refine ⟨by simp [hlen], fun j r hj => ?_⟩
        cases j with
        | zero =>
          simp only [List.get?] at hj
          cases hj
          exact ⟨trow, rfl, hrow⟩
        | succ j =>
          simp only [List.get?] at hj
          obtain ⟨tr, htr, hdec⟩ := hrows j r hj
          exact ⟨tr, by simpa using htr, hdec⟩

/-- C3: when the reply decodes to a rows result, a successful
`Session::query` returns one output row per input row in order, each output
row as long as the column specifications, with the value at every column
position produced by the wrapper for the type of that position's column
specification from the response metadata, applied to the cell at the same
position of the input row. -/
theorem query_rows_decoding (c : Codec) (wf : WrapperFn) (q : String)
    (st : SessionState) (data : List Nat) (rest : List Message)
    (env : Envelope) (rows : List (List CBytes)) (specs : List ColSpec)
    (table : List (List CassandraType))
    (hin : st.in_rx = Message.binary data :: rest)
    (hdec : c.decode data = some env)
    (hbody : c.response_body env = some (.Result (.Rows rows specs)))
    (hres : (Session.query c wf q st).1 = .ok table) :
    table.length = rows.length ∧
    (∀ j trow, table.get? j = some trow → trow.length = specs.length) ∧
    (∀ j i row spec, rows.get? j = some row → specs.get? i = some spec →
      ∃ cell value, row.get? i = some cell ∧
        wf spec.col_type.id cell spec.col_type env.version = some value ∧
        (table.get? j).bind (fun trow => trow.get? i) = some value) := by
  obtain ⟨in_rx, out_tx⟩ := st
  simp only at hin
  subst hin
  simp only [Session.query, Session.decode, hdec, hbody] at hres
  cases hrows : decodeRows wf env.version specs rows with
  | error a => simp only [hrows] at hres; cases hres
  | ok table2 =>
    simp only [hrows, Except.ok.injEq] at hres
    subst hres
    obtain ⟨hlen, hrowwise⟩ := decodeRows_ok wf env.version specs rows
      table2 hrows
    refine ⟨hlen, ?_, ?_⟩
    · intro j trow htrow
      rcases hjr : rows.get? j with _ | row
      · rw [List.get?_eq_none] at hjr
        rw [List.get?_eq_none.mpr (hlen ▸ hjr)] at htrow
        cases htrow
      · obtain ⟨tr, htr, hdecr⟩ := hrowwise j row hjr
        rw [htr] at htrow
        cases htrow
        exact (decodeRowFrom_ok wf env.version row specs 0 trow hdecr).1
    · intro j i row spec hjr hspec
      obtain ⟨tr, htr, hdecr⟩ := hrowwise j row hjr
      obtain ⟨-, hcols⟩ := decodeRowFrom_ok wf env.version row specs 0
        tr hdecr
      obtain ⟨cell, value, hcell, hw, hval⟩ := hcols i spec hspec
      refine ⟨cell, value, by simpa using hcell, hw, ?_⟩
      simp only [List.get?_eq_getElem?] at htr hval ⊢
      simp [htr, hval]

/-- C3 witness: the sample query on three mixed-type rows returns the
sample table, whose row count matches the input. -/
theorem query_rows_decoding_witness :
    (Session.query sampleCodec sampleWrapper ("SELECT * FROM test_table")
        { in_rx := [Message.binary [8]], out_tx := [] }).1
      = .ok sampleTable ∧
    sampleTable.length = sampleRows.length := by
  have h := query_rows_decoding sampleCodec sampleWrapper
    "SELECT * FROM test_table"
    { in_rx := [Message.binary [8]], out_tx := [] } [8] []
    { version := .V4, opcode := .Result, body := [8] }
    sampleRows sampleColSpecs sampleTable rfl rfl rfl rfl
  exact ⟨rfl, h.1⟩

/-- C4: `Session::query` appends exactly one encoded query frame to the
outbound queue and consumes exactly one frame from the inbound queue, and
when the decoded reply's body is anything other than a rows result the
call fails with the fatal protocol violation. -/
theorem query_one_round_trip (c : Codec) (wf : WrapperFn) (q : String)
    (st : SessionState) (data : List Nat) (rest : List Message)
    (env : Envelope)
    (hin : st.in_rx = Message.binary data :: rest)
    (hdec : c.decode data = some env) :
    (Session.query c wf q st).2.out_tx
        = st.out_tx ++ [Session.encode c (new_query c q)] ∧
    (Session.query c wf q st).2.in_rx = rest ∧
    (∀ body, c.response_body env = some body →
      (∀ rows specs, body ≠ .Result (.Rows rows specs)) →
      (Session.query c wf q st).1 = .error (.protocolViolation
        "unexpected to recieve a result envelope")) := by
  obtain ⟨in_rx, out_tx⟩ := st
  simp only at hin
  subst hin
  refine ⟨?_, ?_, ?_⟩
  · simp only [Session.query, Session.decode, hdec]
    cases hbody : c.response_body env with
    | none => simp
    | some body =>
      cases body with
      | Result r =>
        cases r with
        | Rows rows specs =>
          cases hrows : decodeRows wf env.version specs rows <;> simp [hrows]
        | Void => simp
        | SetKeyspace s => simp
        | Prepared => simp
        | SchemaChange => simp
      | Ready => simp
      | Authenticate cls => simp
      | ErrorBody msg => simp
      | Supported => simp
      | Event => simp
      | AuthSuccess => simp
      | AuthChallenge => simp
  · simp only [Session.query, Session.decode, hdec]
    cases hbody : c.response_body env with
    | none => simp
    | some body =>
      cases body with
      | Result r =>
        cases r with
        | Rows rows specs =>
          cases hrows : decodeRows wf env.version specs rows <;> simp [hrows]
        | Void => simp
        | SetKeyspace s => simp
        | Prepared => simp
        | SchemaChange => simp
      | Ready => simp
      | Authenticate cls => simp
      | ErrorBody msg => simp
      | Supported => simp
      | Event => simp
      | AuthSuccess => simp
      | AuthChallenge => simp
  · intro body hbody hnotrows
    simp only [Session.query, Session.decode, hdec, hbody]

/-- C4 witness: a query against the sample codec pushes exactly the encoded
query frame, consumes the single reply, and an error-body reply is a fatal
protocol violation. -/
theorem query_one_round_trip_witness :
    (Session.query sampleCodec sampleWrapper ("SELECT 1")
        { in_rx := [Message.binary [0]], out_tx := [] }).2
      = { in_rx := [], out_tx := [Message.binary [7]] } ∧
    (Session.query sampleCodec sampleWrapper ("SELECT 1")
        { in_rx := [Message.binary [0]], out_tx := [] }).1
      = .error (.protocolViolation ("unexpected to recieve a result envelope"))
    := by
  have h := query_one_round_trip sampleCodec sampleWrapper ("SELECT 1")
    { in_rx := [Message.binary [0]], out_tx := [] } [0] []
    { version := .V4, opcode := .Error, body := [0] } rfl rfl
  refine ⟨?_, h.2.2 (.ErrorBody ("server error")) rfl (by intro rows specs; simp)⟩
  have h1 := h.1
  have h2 := h.2.1
  cases hst : (Session.query sampleCodec sampleWrapper ("SELECT 1")
      { in_rx := [Message.binary [0]], out_tx := [] }).2
  simp [hst] at h1 h2
  simp [h1, h2, Session.encode, new_query, sampleCodec]

/-- The frames the reader loop forwards are exactly the binary frames of
the longest prefix of non-terminating events, in arrival order. -/
theorem readerLoop_forwarded (events : List ReadEvent) :
    (readerLoop events).1 =
      (events.takeWhile ReadEvent.continues).filterMap ReadEvent.forwarded := by
  induction events with
  | nil => simp [readerLoop]
  | cons e evs ih =>
    match e with
    | .received (.binary d) =>
      simp [readerLoop, ReadEvent.continues, ReadEvent.forwarded, ih]
    | .received (.text s) => simp [readerLoop, ReadEvent.continues]
    | .received (.ping d) => simp [readerLoop, ReadEvent.continues]
    | .received (.pong d) => simp [readerLoop, ReadEvent.continues]
    | .received .close => simp [readerLoop, ReadEvent.continues]
    | .readError err => simp [readerLoop, ReadEvent.continues]
    | .streamEnded =>
      simp [readerLoop, ReadEvent.continues, ReadEvent.forwarded, ih]
    | .consumerClosed => simp [readerLoop, ReadEvent.continues]

/-- The reader loop's outcome is determined by the first terminating
event, when there is one. -/
theorem readerLoop_outcome (events : List ReadEvent) :
    (readerLoop events).2 =
      (match (events.dropWhile ReadEvent.continues).head? with
       | none => ReaderOutcome.stillRunning
       | some e => e.stopOutcome) := by
  induction events with
  | nil => simp [readerLoop]
  | cons e evs ih =>
    match e with
    | .received (.binary d) =>
      simpa [readerLoop, ReadEvent.continues] using ih
    | .received (.text s) =>
      simp [readerLoop, ReadEvent.continues, ReadEvent.stopOutcome]
    | .received (.ping d) =>
      simp [readerLoop, ReadEvent.continues, ReadEvent.stopOutcome]
    | .received (.pong d) =>
      simp [readerLoop, ReadEvent.continues, ReadEvent.stopOutcome]
    | .received .close =>
      simp [readerLoop, ReadEvent.continues, ReadEvent.stopOutcome]
    | .readError err =>
      simp [readerLoop, ReadEvent.continues, ReadEvent.stopOutcome]
    | .streamEnded => simpa [readerLoop, ReadEvent.continues] using ih
    | .consumerClosed =>
      simp [readerLoop, ReadEvent.continues, ReadEvent.stopOutcome]

/-- After a run of non-terminating events, the first terminating event
stops the loop with its outcome, having forwarded exactly the binary
frames before it; nothing after it is processed. -/
theorem readerLoop_stops (e : ReadEvent) (suf : List ReadEvent) :
    ∀ pre : List ReadEvent, (∀ x ∈ pre, x.continues = true) →
    e.continues = false →
    readerLoop (pre ++ e :: suf) =
      (pre.filterMap ReadEvent.forwarded, e.stopOutcome)
  | [], _, he => by
    match e, he with
    | .received (.text s), _ => simp [readerLoop, ReadEvent.stopOutcome]
    | .received (.ping d), _ => simp [readerLoop, ReadEvent.stopOutcome]
    | .received (.pong d), _ => simp [readerLoop, ReadEvent.stopOutcome]
    | .received .close, _ => simp [readerLoop, ReadEvent.stopOutcome]
    | .readError err, _ => simp [readerLoop, ReadEvent.stopOutcome]
    | .consumerClosed, _ => simp [readerLoop, ReadEvent.stopOutcome]
  | x :: pre, hpre, he => by
    have hx := hpre x (by simp)
    have hrest := readerLoop_stops e suf pre
      (fun y hy => hpre y (by simp [hy])) he
    match x, hx with
    | .received (.binary d), _ =>
      simp [readerLoop, hrest, ReadEvent.forwarded]
    | .streamEnded, _ =>
      simpa [readerLoop, ReadEvent.forwarded] using hrest

/-- C5: the reader loop forwards exactly the binary frames that arrive
before any terminating event, preserving their order; a close frame
terminates it cleanly with nothing further forwarded; any other
non-binary frame or a transport read error terminates it abnormally; the
disappearance of the inbound queue's consumer also terminates it. -/
theorem reader_loop_spec (events : List ReadEvent) :
    ((readerLoop events).1 =
      (events.takeWhile ReadEvent.continues).filterMap ReadEvent.forwarded) ∧
    ((readerLoop events).2 =
      (match (events.dropWhile ReadEvent.continues).head? with
       | none => ReaderOutcome.stillRunning
       | some e => e.stopOutcome)) ∧
    (∀ pre suf, (∀ x ∈ pre, ReadEvent.continues x = true) →
      readerLoop (pre ++ .received .close :: suf) =
        (pre.filterMap ReadEvent.forwarded, .cleanClose)) ∧
    (∀ pre suf m, (∀ x ∈ pre, ReadEvent.continues x = true) →
      (∀ d, m ≠ .binary d) → m ≠ .close →
      readerLoop (pre ++ .received m :: suf) =
        (pre.filterMap ReadEvent.forwarded, .fatalNonBinary)) ∧
    (∀ pre suf err, (∀ x ∈ pre, ReadEvent.continues x = true) →
      readerLoop (pre ++ .readError err :: suf) =
        (pre.filterMap ReadEvent.forwarded, .fatalReadError err)) ∧
    (∀ pre suf, (∀ x ∈ pre, ReadEvent.continues x = true) →
      readerLoop (pre ++ .consumerClosed :: suf) =
        (pre.filterMap ReadEvent.forwarded, .consumerGone)) := by
  refine ⟨readerLoop_forwarded events, readerLoop_outcome events,
    fun pre suf hpre => readerLoop_stops _ suf pre hpre rfl,
    fun pre suf m hpre hbin hclose => ?_,
    fun pre suf err hpre => readerLoop_stops _ suf pre hpre rfl,
    fun pre suf hpre => readerLoop_stops _ suf pre hpre rfl⟩
  match m, hbin, hclose with
  | .text s, _, _ =>
    exact readerLoop_stops _ suf pre hpre rfl
  | .ping d, _, _ =>
    exact readerLoop_stops _ suf pre hpre rfl
  | .pong d, _, _ =>
    exact readerLoop_stops _ suf pre hpre rfl
  | .binary d, hbin, _ => exact absurd rfl (hbin d)
  | .close, _, hclose => exact absurd rfl hclose

/-- C5 witness: two binary frames and a silent stream end followed by a
close frame: the loop forwards exactly the two frames in order and
terminates cleanly, ignoring everything after the close. -/
theorem reader_loop_spec_witness :
    readerLoop [.received (.binary [1]), .streamEnded,
        .received (.binary [2]), .received .close,
        .received (.binary [3])] =
      ([Message.binary [1], Message.binary [2]], .cleanClose) ∧
    readerLoop [.received (.binary [4]), .received (.text ("hi"))] =
      ([Message.binary [4]], .fatalNonBinary) ∧
    readerLoop [.consumerClosed, .received (.binary [5])] =
      ([], .consumerGone) := by
  refine ⟨?_, ?_, ?_⟩
  · have h := (reader_loop_spec []).2.2.1
      [.received (.binary [1]), .streamEnded, .received (.binary [2])]
      [.received (.binary [3])] (by decide)
    simpa using h
  · have h := (reader_loop_spec []).2.2.2.1 [.received (.binary [4])] []
      (.text ("hi")) (by decide) (by simp) (by simp)
    simpa using h
  · have h := (reader_loop_spec []).2.2.2.2.2 [] [.received (.binary [5])]
      (by simp)
    simpa using h

/-- When every queue-entry send succeeds, the writer loop starting at send
index `i` hands the whole queue to the socket in order followed by exactly
one close frame, and its outcome depends only on the close-frame send:
tolerated for success and for send-after-closing, fatal otherwise. -/
theorem writerLoop_all_ok (send : Nat → SendResult) :
    ∀ (queue : List Message) (i : Nat),
    (∀ k, k < queue.length → send (i + k) = .ok) →
    writerLoop send i queue =
      (queue ++ [Message.close],
        match send (i + queue.length) with
        | .otherError e => .fatal e
        | _ => .terminated)
  | [], i, _ => by
    cases h : send i with
    | ok => simp [writerLoop, h]
    | sendAfterClosing => simp [writerLoop, h]
    | otherError e => simp [writerLoop, h]
  | m :: queue, i, hok => by
    have h0 : send i = .ok := by simpa using hok 0 (by simp)
    have hrest := writerLoop_all_ok send queue (i + 1)
      (fun k hk => by
        have := hok (k + 1) (by simpa using Nat.succ_lt_succ hk)
        simpa [Nat.add_assoc, Nat.add_comm, Nat.add_left_comm] using this)
    have harith : i + (m :: queue).length = (i + 1) + queue.length := by
      simp [Nat.add_assoc, Nat.add_comm, Nat.add_left_comm]
    rw [harith]
    simp [writerLoop, h0, hrest]

/-- When a queue entry's send fails, the writer loop terminates fatally at
that entry, having handed over exactly the earlier entries and the failing
one. -/
theorem writerLoop_entry_fails (send : Nat → SendResult) (m : Message)
    (suf : List Message) :
    ∀ (pre : List Message) (i : Nat),
    (∀ k, k < pre.length → send (i + k) = .ok) →
    send (i + pre.length) ≠ .ok →
    ∃ e, writerLoop send i (pre ++ m :: suf) = (pre ++ [m], .fatal e)
  | [], i, _, hfail => by
    cases h : send i with
    | ok => exact absurd (by simpa using h) (by simpa using hfail)
    | sendAfterClosing =>
      exact ⟨"SendAfterClosing", by simp [writerLoop, h]⟩
    | otherError e => exact ⟨e, by simp [writerLoop, h]⟩
  | x :: pre, i, hok, hfail => by
    have h0 : send i = .ok := by simpa using hok 0 (by simp)
    obtain ⟨e, he⟩ := writerLoop_entry_fails send m suf pre (i + 1)
      (fun k hk => by
        have := hok (k + 1) (by simpa using Nat.succ_lt_succ hk)
        simpa [Nat.add_assoc, Nat.add_comm, Nat.add_left_comm] using this)
      (by
        intro hc
        refine hfail ?_
        simpa [Nat.add_assoc, Nat.add_comm, Nat.add_left_comm] using hc)
    exact ⟨e, by simp [writerLoop, h0, he]⟩

/-- C6: when every queue-entry send succeeds, the writer loop sends the
entries in order, then exactly one close frame once the producer side is
closed, and terminates; a send-after-closing failure on that close frame
is tolerated while any other close-send failure is fatal; and a failed
send of any queue entry is fatal on the spot. -/
theorem writer_loop_spec (send : Nat → SendResult) (queue : List Message) :
    ((∀ k, k < queue.length → send k = .ok) →
      (writerLoop send 0 queue).1 = queue ++ [Message.close] ∧
      (send queue.length = .ok ∨ send queue.length = .sendAfterClosing →
        (writerLoop send 0 queue).2 = .terminated) ∧
      (∀ e, send queue.length = .otherError e →
        (writerLoop send 0 queue).2 = .fatal e)) ∧
    (∀ pre m suf, queue = pre ++ m :: suf →
      (∀ k, k < pre.length → send k = .ok) → send pre.length ≠ .ok →
      (writerLoop send 0 queue).1 = pre ++ [m] ∧
      ∃ e, (writerLoop send 0 queue).2 = .fatal e) := by
  constructor
  · intro hok
    have h := writerLoop_all_ok send queue 0 (fun k hk => by
      simpa using hok k hk)
    refine ⟨by simp [h], ?_, ?_⟩
    · rintro (hc | hc) <;> simp [h, hc]
    · intro e hc
      simp [h, hc]
  · rintro pre m suf rfl hok hfail
    obtain ⟨e, he⟩ := writerLoop_entry_fails send m suf pre 0
      (fun k hk => by simpa using hok k hk) (by simpa using hfail)
    exact ⟨by simp [he], e, by simp [he]⟩

/-- C6 witness: one successfully sent entry, then the producer closes and
the close-frame send hits the peer's earlier close: the loop still sends
exactly the entry and one close frame and terminates without error; a
failing entry send is fatal at a concrete input too. -/
theorem writer_loop_spec_witness :
    writerLoop (fun k => if k = 1 then .sendAfterClosing else .ok) 0
        [Message.binary [9]] =
      ([Message.binary [9], Message.close], .terminated) ∧
    ((writerLoop (fun _ => .otherError ("broken pipe")) 0
        [Message.binary [9]]).1 = [Message.binary [9]] ∧
      ∃ e, (writerLoop (fun _ => .otherError ("broken pipe")) 0
        [Message.binary [9]]).2 = .fatal e) := by
  constructor
  · have h := (writer_loop_spec
      (fun k => if k = 1 then .sendAfterClosing else .ok)
      [Message.binary [9]]).1 (by decide)
    have h1 := h.1
    have h2 := h.2.1 (Or.inr (by decide))
    cases hw : writerLoop (fun k => if k = 1 then .sendAfterClosing else .ok)
      0 [Message.binary [9]]
    simp [hw] at h1 h2
    simp [h1, h2]
  · have h := (writer_loop_spec (fun _ => .otherError ("broken pipe"))
      [Message.binary [9]]).2 [] (Message.binary [9]) [] rfl
      (by intro k hk; simp at hk) (by decide)
    exact ⟨by simpa using h.1, h.2⟩

/-- The host extracted from the authority is everything strictly after the
first `@` when the authority has one, and the whole authority otherwise —
the `find`/`split_at` computation agrees with this direct description. -/
theorem hostOf_after_first_at : ∀ authority : List Char,
    hostOf authority =
      if '@' ∈ authority then (authority.dropWhile (· ≠ '@')).drop 1
      else authority
  | [] => by simp [hostOf]
  | c :: cs => by
    have ih := hostOf_after_first_at cs
    by_cases hc : c = '@'
    · subst hc
      rw [hostOf, List.findIdx?_cons]
      simp [List.splitAt_eq]
    · rw [hostOf, List.findIdx?_cons, if_neg (by simp [hc]),
        List.findIdx?_succ]
      cases hfind : cs.findIdx? (· = '@') with
      | none =>
        have hmem : '@' ∉ cs := by
          intro hmem
          have := List.findIdx?_eq_none_iff.mp hfind '@' hmem
          simp at this
        simp [hmem, Ne.symm hc]
      | some i =>
        have hmem : '@' ∈ cs := by
          by_contra hmem
          rw [List.findIdx?_eq_none_iff.mpr (fun x hx => by
            simp only [decide_eq_false_iff_not]
            intro hcontra
            exact hmem (hcontra ▸ hx))] at hfind
          cases hfind
        simp only [hostOf, hfind, List.splitAt_eq, if_pos hmem] at ih
        simp only [Option.map_some', List.splitAt_eq,
          if_pos (List.mem_cons_of_mem c hmem)]
        rw [List.dropWhile_cons, if_pos (by simp [hc])]
        rw [List.drop_succ_cons]
        exact ih

/-- C7: for every URI parsing to an authority whose extracted host is
non-empty, the constructed upgrade request uses method GET and carries the
Host, `Connection: Upgrade`, `Upgrade: websocket`,
`Sec-WebSocket-Version: 13` and `Sec-WebSocket-Key` headers, and the
`Sec-WebSocket-Protocol: cql` header exactly when the sub-protocol flag is
set. -/
theorem construct_request_headers (parseUri : String → Option Uri)
    (genKey : String) (uri : String) (use_subprotocol_header : Bool)
    (parsed : Uri) (authority : List Char)
    (hparse : parseUri uri = some parsed)
    (hauth : parsed.authority = some authority)
    (hhost : (hostOf authority).isEmpty = false) :
    ∃ req, construct_request parseUri genKey uri use_subprotocol_header
        = .ok req ∧
      req.method = "GET" ∧
      ("Host", String.mk (hostOf authority)) ∈ req.headers ∧
      ("Connection", "Upgrade") ∈ req.headers ∧
      ("Upgrade", "websocket") ∈ req.headers ∧
      ("Sec-WebSocket-Version", "13") ∈ req.headers ∧
      ("Sec-WebSocket-Key", genKey) ∈ req.headers ∧
      (("Sec-WebSocket-Protocol", "cql") ∈ req.headers
        ↔ use_subprotocol_header = true) := by
  cases use_subprotocol_header <;>
    simp [construct_request, hparse, hauth, hhost]

/-- C7 witness: a concrete URI with a userinfo-free authority and the flag
set yields a GET request carrying all six headers; with the flag unset the
sub-protocol header is absent. -/
theorem construct_request_headers_witness :
    (∃ req, construct_request
        (fun _ => some { authority := some ("127.0.0.1:9042".data) })
        "samplekey" "ws://127.0.0.1:9042" true = .ok req ∧
      req.method = "GET" ∧
      ("Host", String.mk (hostOf ("127.0.0.1:9042".data))) ∈ req.headers ∧
      ("Sec-WebSocket-Protocol", "cql") ∈ req.headers) ∧
    (∃ req, construct_request
        (fun _ => some { authority := some ("127.0.0.1:9042".data) })
        "samplekey" "ws://127.0.0.1:9042" false = .ok req ∧
      ("Sec-WebSocket-Protocol", "cql") ∉ req.headers) := by
  constructor
  · obtain ⟨req, h1, h2, h3, _, _, _, _, h8⟩ := construct_request_headers
      (fun _ => some { authority := some ("127.0.0.1:9042".data) })
      "samplekey" "ws://127.0.0.1:9042" true
      { authority := some ("127.0.0.1:9042".data) } ("127.0.0.1:9042".data)
      rfl rfl (by decide)
    exact ⟨req, h1, h2, h3, h8.mpr rfl⟩
  · obtain ⟨req, h1, _, _, _, _, _, _, h8⟩ := construct_request_headers
      (fun _ => some { authority := some ("127.0.0.1:9042".data) })
      "samplekey" "ws://127.0.0.1:9042" false
      { authority := some ("127.0.0.1:9042".data) } ("127.0.0.1:9042".data)
      rfl rfl (by decide)
    refine ⟨req, h1, fun hmem => ?_⟩
    cases h8.mp hmem

/-- C9: on success, the Host header of the constructed request is the part
of the authority strictly after the first `@` when the authority contains
one, and the whole authority otherwise. -/
theorem host_header_strips_userinfo (parseUri : String → Option Uri)
    (genKey : String) (uri : String) (use_subprotocol_header : Bool)
    (parsed : Uri) (authority : List Char) (req : HttpRequest)
    (hparse : parseUri uri = some parsed)
    (hauth : parsed.authority = some authority)
    (hreq : construct_request parseUri genKey uri use_subprotocol_header
      = .ok req) :
    ('@' ∈ authority →
      ("Host", String.mk ((authority.dropWhile (· ≠ '@')).drop 1))
        ∈ req.headers) ∧
    ('@' ∉ authority → ("Host", String.mk authority) ∈ req.headers) := by
  have hspec := hostOf_after_first_at authority
  simp only [construct_request, hparse, hauth] at hreq
  by_cases hhost : (hostOf authority).isEmpty
  · simp [hhost] at hreq
  · rw [if_neg hhost] at hreq
    simp only [Except.ok.injEq] at hreq
    subst hreq
    constructor
    · intro hmem
      rw [if_pos hmem] at hspec
      rw [hspec]
      cases use_subprotocol_header <;> simp
    · intro hmem
      rw [if_neg hmem] at hspec
      rw [hspec]
      cases use_subprotocol_header <;> simp

/-- C9 witness: an authority `u@h` with userinfo yields a Host header of
exactly the part after the `@`; an authority `hz` without one is used
whole. -/
theorem host_header_strips_userinfo_witness :
    (construct_request (fun _ => some { authority := some ['u', '@', 'h'] })
        "samplekey" "ws://u@h" true = .ok sampleUserinfoRequest ∧
      ("Host", String.mk ['h']) ∈ sampleUserinfoRequest.headers) ∧
    (construct_request (fun _ => some { authority := some ['h', 'z'] })
        "samplekey" "ws://hz" true = .ok sampleBareRequest ∧
      ("Host", String.mk ['h', 'z']) ∈ sampleBareRequest.headers) := by
  constructor
  · refine ⟨rfl, ?_⟩
    have h := (host_header_strips_userinfo
      (fun _ => some { authority := some ['u', '@', 'h'] }) "samplekey"
      "ws://u@h" true { authority := some ['u', '@', 'h'] } ['u', '@', 'h']
      sampleUserinfoRequest rfl rfl rfl).1 (by decide)
    exact h
  · refine ⟨rfl, ?_⟩
    have h := (host_header_strips_userinfo
      (fun _ => some { authority := some ['h', 'z'] }) "samplekey"
      "ws://hz" true { authority := some ['h', 'z'] } ['h', 'z']
      sampleBareRequest rfl rfl rfl).2 (by decide)
    exact h

/-- C8: each setup failure — unreadable CA file, unparseable CA file,
unparseable URI, empty host — makes `Session::new_tls` fail with that
error immediately, with no frame pushed to the outbound queue. -/
theorem setup_failures_fatal (c : Codec) (parseUri : String → Option Uri)
    (genKey : String) (readFile : String → Option (List Nat))
    (parseCerts : List Nat → Option (List Certificate))
    (addOk : Certificate → Bool)
    (connect : HttpRequest → RootCertStore → Option (List Message))
    (address ca_path : String) (flag : Bool) :
    (readFile ca_path = none →
      new_tls c parseUri genKey readFile parseCerts addOk connect address
        ca_path flag = (.error .caReadFailure, [])) ∧
    (∀ pem, readFile ca_path = some pem → parseCerts pem = none →
      new_tls c parseUri genKey readFile parseCerts addOk connect address
        ca_path flag = (.error .caParseFailure, [])) ∧
    (∀ store, load_ca readFile parseCerts addOk ca_path = .ok store →
      parseUri address = none →
      new_tls c parseUri genKey readFile parseCerts addOk connect address
        ca_path flag = (.error .uriParseFailure, [])) ∧
    (∀ store parsed authority,
      load_ca readFile parseCerts addOk ca_path = .ok store →
      parseUri address = some parsed → parsed.authority = some authority →
      (hostOf authority).isEmpty = true →
      new_tls c parseUri genKey readFile parseCerts addOk connect address
        ca_path flag = (.error .emptyHost, [])) := by
  refine ⟨?_, ?_, ?_, ?_⟩
  · intro hread
    simp [new_tls, load_ca, hread]
  · intro pem hread hparse
    simp [new_tls, load_ca, hread, hparse]
  · intro store hload huri
    simp [new_tls, hload, construct_request, huri]
  · intro store parsed authority hload huri hauth hhost
    simp [new_tls, hload, construct_request, huri, hauth, hhost]

/-- C8 witness: a failing CA-file read and an empty extracted host are both
surfaced as the matching fatal setup error, with an empty outbound
queue. -/
theorem setup_failures_fatal_witness :
    new_tls sampleCodec (fun _ => some { authority := some ['h'] }) "k"
        (fun _ => none) (fun _ => some []) (fun _ => true)
        (fun _ _ => some []) "ws://h" "/missing.pem" true
      = (.error .caReadFailure, []) ∧
    new_tls sampleCodec (fun _ => some { authority := some ['u', '@'] }) "k"
        (fun _ => some [1]) (fun _ => some []) (fun _ => true)
        (fun _ _ => some []) "ws://u@" "/ca.pem" true
      = (.error .emptyHost, []) := by
  constructor
  · exact (setup_failures_fatal sampleCodec
      (fun _ => some { authority := some ['h'] }) "k" (fun _ => none)
      (fun _ => some []) (fun _ => true) (fun _ _ => some [])
      "ws://h" "/missing.pem" true).1 rfl
  · exact (setup_failures_fatal sampleCodec
      (fun _ => some { authority := some ['u', '@'] }) "k"
      (fun _ => some [1]) (fun _ => some []) (fun _ => true)
      (fun _ _ => some []) "ws://u@" "/ca.pem" true).2.2.2 []
      { authority := some ['u', '@'] } ['u', '@'] rfl rfl rfl (by decide)

/-- Row decoding starting at column `i` never aborts with an out-of-bounds
index when the row has at least `i +` (number of remaining column
specifications) cells. -/
theorem decodeRowFrom_no_oob (wf : WrapperFn) (v : Version)
    (row : List CBytes) :
    ∀ (specs : List ColSpec) (i : Nat), i + specs.length ≤ row.length →
    ∀ j, decodeRowFrom wf v row i specs ≠ .error (.indexOutOfBounds j)
  | [], i, _, j => by simp [decodeRowFrom]
  | spec :: specs, i, hle, j => by
    have hi : i < row.length := by
      simp only [List.length_cons] at hle
      omega
    rw [decodeRowFrom]
    cases hcell : row.get? i with
    | none =>
      rw [List.get?_eq_getElem?, List.getElem?_eq_none_iff] at hcell
      omega
    | some cell =>
      cases hw : wf spec.col_type.id cell spec.col_type v with
      | none => simp [hw]
      | some value =>
        have hrec := decodeRowFrom_no_oob wf v row specs (i + 1)
          (by simp only [List.length_cons] at hle; omega) j
        cases hrecv : decodeRowFrom wf v row (i + 1) specs with
        | error a =>
          simp only [hw, hrecv]
          rw [hrecv] at hrec
          simpa using hrec
        | ok values => simp [hw, hrecv]

/-- C10: the per-column indexing of `Session::query` stays in bounds for
every rows result in which each row has at least as many cells as there
are column specifications; and on a concrete input violating that
precondition (a one-column specification with an empty row), decoding
aborts with an out-of-bounds index instead of returning a table. -/
theorem rows_indexing_bounds (wf : WrapperFn) (v : Version)
    (col_specs : List ColSpec) :
    ∀ rows_content : List (List CBytes),
    (∀ row ∈ rows_content, col_specs.length ≤ row.length) →
    ((∀ i, decodeRows wf v col_specs rows_content ≠
        .error (.indexOutOfBounds i)) ∧
      decodeRows sampleWrapper .V4
        [{ name := "id", col_type := { id := .Int } }] [[]]
        = .error (.indexOutOfBounds 0))
  | [], _ => ⟨by simp [decodeRows], rfl⟩
  | row :: rows, hlen => by
    refine ⟨fun i => ?_, rfl⟩
    rw [decodeRows]
    have hrow := decodeRowFrom_no_oob wf v row col_specs 0
      (by simpa using hlen row (by simp)) i
    cases hrowd : decodeRowFrom wf v row 0 col_specs with
    | error a =>
      rw [hrowd] at hrow
      simpa using hrow
    | ok trow =>
      have hrest := (rows_indexing_bounds wf v col_specs rows
        (fun r hr => hlen r (by simp [hr]))).1 i
      cases hrestd : decodeRows wf v col_specs rows with
      | error a =>
        rw [hrestd] at hrest
        simpa using hrest
      | ok rtable => simp

/-- C10 witness: the in-bounds half applied to the sample rows (each of
width two, matching the two column specifications), and the concrete
aborting input. -/
theorem rows_indexing_bounds_witness :
    (∀ i, decodeRows sampleWrapper .V4 sampleColSpecs sampleRows ≠
      .error (.indexOutOfBounds i)) ∧
    decodeRows sampleWrapper .V4
      [{ name := "id", col_type := { id := .Int } }] [[]]
      = .error (.indexOutOfBounds 0) :=
  rows_indexing_bounds sampleWrapper .V4 sampleColSpecs sampleRows
    (by decide)

/-- C1 witness: at a concrete input, a delegate failing only on name
mismatch is accepted, and a delegate failing with an expired certificate is
rejected with that same error. -/
theorem verify_server_cert_skips_only_name_mismatch_witness :
    (verify_server_cert
      (fun _ => .error (.InvalidCertificate .NotValidForName))
      { end_entity := [1], intermediates := [], server_name := "10.0.0.1",
        ocsp_response := [], now := 0 }).isOk ∧
    verify_server_cert (fun _ => .error (.InvalidCertificate .Expired))
      { end_entity := [1], intermediates := [], server_name := "10.0.0.1",
        ocsp_response := [], now := 0 } =
      .error (.InvalidCertificate .Expired) := by
  refine ⟨?_, ?_⟩
  · exact (verify_server_cert_skips_only_name_mismatch
      (fun _ => .error (.InvalidCertificate .NotValidForName))
      { end_entity := [1], intermediates := [], server_name := "10.0.0.1",
        ocsp_response := [], now := 0 }).1.mpr (Or.inr rfl)
  · exact (verify_server_cert_skips_only_name_mismatch
      (fun _ => .error (.InvalidCertificate .Expired))
      { end_entity := [1], intermediates := [], server_name := "10.0.0.1",
        ocsp_response := [], now := 0 }).2
      (.InvalidCertificate .Expired) (by decide) rfl

end CqlWs
